import Mathlib

/-!
# Verification of the sitepkg configuration layer

A shallow embedding in Lean 4 of the option-registry, config-file-reading and
command-line-overlay logic of the `sitepkg` Go package (`config.go`,
`utils.go`), together with theorems checking the natural-language
specification against that code.

Modelling conventions:
* Go strings are Lean `String`s; most character processing is done on
  `List Char` (the `data` field), matching Go's byte/rune processing for the
  ASCII characters relevant here (`' '`, `'\t'`, `'#'`, `'['`, `']'`, `'='`).
* The global mutable registry `Config` (a Go map from option name to
  `*Option`) is an association list `List (String × COption)`; in-place
  mutation through an option pointer becomes a functional update of the
  first binding for the key.  Go maps have unique keys, so first-binding
  lookup and update model them exactly.
* `bufio.Scanner` line reading becomes an explicit `List String` of lines
  (the scanner strips line terminators).
* Fallible code returns the final registry state together with
  `Option String`, the error message that Go's `Error(format, ...)` would
  build (`none` = no error); Go returns the error while keeping all
  mutations to the shared registry performed so far, which the pair models.
* Go `int` is 64-bit here (the package targets 64-bit Linux); `strconv.Atoi`
  and `strconv.ParseUint(s, 10, 64)` are modelled with explicit range checks.
* `strings.ToLower` is modelled by `Char.toLower` (ASCII); the option names
  and boolean words the code compares against are ASCII.
-/

namespace Sitepkg

/-! ## Character helpers (Go `strings.TrimLeft/TrimRight` cutset " \t" etc.) -/

/-- Horizontal whitespace, the cutset `" \t"` used by the Go code
(codepoints 32 and 9). -/
def isHWS (c : Char) : Bool := c.toNat == 32 || c.toNat == 9

abbrev Chars := List Char

/-- Go `strings.TrimLeft(s, " \t")`. -/
def trimLeftWS (l : Chars) : Chars := l.dropWhile isHWS

/-- Go `strings.TrimRight(s, " \t")`. -/
def trimRightWS (l : Chars) : Chars := (l.reverse.dropWhile isHWS).reverse

/-- Go `strings.ToLower` restricted to ASCII. -/
def lowerChars (l : Chars) : Chars := l.map Char.toLower

/-- Does the list consist of zero or more horizontal-whitespace characters
followed by `'#'`?  This is the continuation test for a match of the Go
regular expression `[ \t]+#.*$` starting at the previous character. -/
def hashAfterWS : Chars → Bool
  | [] => false
  | c :: r => if c = '#' then true else if isHWS c then hashAfterWS r else false

/-- Go `regexp.MustCompile("[ \t]+#.*$").Split(line, 2)[0]`: cut the line at
the leftmost occurrence of one-or-more horizontal whitespace characters
followed by `'#'` (the trailing-comment rule of `ReadConfigFile` and
`ReadListFromFile`). -/
def stripTrailingComment : Chars → Chars
  | [] => []
  | c :: r => if isHWS c ∧ hashAfterWS r then [] else c :: stripTrailingComment r

/-- Go `strings.TrimSuffix(s, "]")`: remove one trailing `']'` if present. -/
def trimSuffixRB (l : Chars) : Chars :=
  match l.reverse with
  | [] => l
  | c :: r => if c = ']' then r.reverse else l

/-- Go `strings.SplitN(line, "=", 2)`: `none` when the line has no `'='`
(slice length 1, the malformed-line case), otherwise the parts before and
after the first `'='`. -/
def splitEq : Chars → Option (Chars × Chars)
  | [] => none
  | c :: r =>
    if c = '=' then some ([], r)
    else
      match splitEq r with
      | none => none
      | some (a, b) => some (c :: a, b)

/-! ## Numeric parsing (Go `strconv`) -/

/-- Decimal digit run: `none` on empty input or any non-digit. -/
def parseDigitsAux (acc : Nat) : Chars → Option Nat
  | [] => some acc
  | c :: r => if 48 ≤ c.toNat ∧ c.toNat ≤ 57 then parseDigitsAux (acc * 10 + (c.toNat - 48)) r else none

def parseDigits : Chars → Option Nat
  | [] => none
  | l => parseDigitsAux 0 l

/-- Model of Go `strconv.Atoi` (= `ParseInt(s, 10, 0)` with 64-bit `int`):
optional sign, nonempty digit run, 64-bit signed range. -/
def parseAtoi (s : String) : Option Int :=
  let core : Bool × Chars :=
    match s.data with
    | '+' :: r => (false, r)
    | '-' :: r => (true, r)
    | r => (false, r)
  match parseDigits core.2 with
  | none => none
  | some n =>
    if core.1 then (if n ≤ 2 ^ 63 then some (-(n : Int)) else none)
    else (if n < 2 ^ 63 then some (n : Int) else none)

/-- Model of Go `strconv.ParseUint(s, 10, 64)` followed by `uint(...)`:
no sign accepted, nonempty digit run, below `2^64`. -/
def parseUintGo (s : String) : Option Nat :=
  match parseDigits s.data with
  | none => none
  | some n => if n < 2 ^ 64 then some n else none

/-! ## Boolean word matching (the regexes `^(t|true|yes|1)$`, `^(f|false|no|0)$`) -/

/-- Full-string match of the anchored Go regex `^(t|true|yes|1)$`. -/
def matchTrueWord (s : String) : Bool :=
  s == "t" || s == "true" || s == "yes" || s == "1"

/-- Full-string match of the anchored Go regex `^(f|false|no|0)$`. -/
def matchFalseWord (s : String) : Bool :=
  s == "f" || s == "false" || s == "no" || s == "0"

/-- `InList` from `utils.go`.  The Go function also returns an `error` that
is always `nil`, which the callers ignore (their error branch is dead), so
the model returns just the boolean. -/
def InList (list : List String) (item : String) : Bool :=
  match list with
  | [] => false
  | x :: rest => if x = item then true else InList rest item

/-- `StringToBool` from `utils.go`.  Control flow kept exactly as in the
source: if the true-word regex matches, return that match; otherwise run the
false-word regex; if it did not match, fail; otherwise return the negation
of the (true) match result together with a nil error.  Regex compilation
and matching never error for these fixed patterns, so the Go `err` values
are `nil` on every path that consults them. -/
def StringToBool (s : String) : Bool × Option String :=
  let m1 := matchTrueWord s
  if m1 then (m1, none)
  else
    let m2 := matchFalseWord s
    if !m2 then (false, some "unsupported string \"%!s(MISSING)\" for boolean value")
    else (!m2, none)

/-! ## Command paths (`GetCommandPaths`, `utils.go`) -/

/-- Go `strings.Split(s, " ")` on the character list: split at every
space; the result always has one more group than there are spaces (so it is
never empty, and `Split("", " ") = [""]`). -/
def splitOnSpaceChars : Chars → List Chars
  | [] => [[]]
  | c :: r =>
    match splitOnSpaceChars r with
    | [] => []
    | g :: gs => if c = ' ' then [] :: g :: gs else (c :: g) :: gs

/-- Go `strings.Split(s, " ")` (single-character separator). -/
def splitOnSpace (s : String) : List String := (splitOnSpaceChars s.data).map String.mk

/-- The loop body of `GetCommandPaths`: Go starts with `command = ""` and
`sep = ""`, appends `command += sep + c` for each remaining token, sets
`sep = ":"` after the first append, and records each intermediate value. -/
def cumulAux (command : String) (sep : String) : List String → List String
  | [] => []
  | c :: rest => (command ++ sep ++ c) :: cumulAux (command ++ sep ++ c) ":" rest

/-- `GetCommandPaths` from `utils.go`: the first path is the global
`ProgramName` (set by `PackageInit` from `path.Base(os.Args[0])`), then one
cumulative colon-joined path per space-separated token of `os.Args[0]`
after the first.  Both globals are passed explicitly. -/
def GetCommandPaths (programName : String) (argsZero : String) : List String :=
  programName :: cumulAux "" "" (splitOnSpace argsZero).tail

/-- Colon-joining of a token list, as the spec words it. -/
def joinColon : List String → String
  | [] => ""
  | [t] => t
  | t :: u :: r => t ++ ":" ++ joinColon (u :: r)

/-- The command-path sequence as the specification describes it: for a token
list `t0 .. tn` (program name first), the i-th path is the colon-join of the
first `i+1` tokens, i.e. `[t0, t0:t1, t0:t1:t2, ...]`.  This definition
follows the spec's words and is compared against `GetCommandPaths`, the
definition translated from the source. -/
def specCommandPaths (tokens : List String) : List String :=
  (List.range tokens.length).map (fun i => joinColon (tokens.take (i + 1)))

/-! ## The option registry (`Option` struct and `Config` map, `config.go`) -/

/-- The Go `Option` struct.  The four value pointers become plain fields
(the Go code only ever dereferences the field matching `Type`); `Source` is
the provenance tag. -/
structure COption where
  type : String
  shortOpt : String
  configFile : Bool
  desc : String
  stringValue : String
  boolValue : Bool
  intValue : Int
  uintValue : Nat
  source : String
deriving DecidableEq

/-- The Go `Options` map (`map[string]*Option`), keyed by lowercased option
name.  Go maps have unique keys; lookup and update work on the first
binding, which coincides with map semantics for unique-key lists. -/
abbrev Config := List (String × COption)

def lookupOpt : Config → String → Option COption
  | [], _ => none
  | (k, o) :: rest, name => if k = name then some o else lookupOpt rest name

/-- Replace the value of the first binding of `name` (in-place mutation
through the `*Option` pointer in Go); a no-op when `name` is absent. -/
def updateOpt : Config → String → COption → Config
  | [], _, _ => []
  | (k, o) :: rest, name, o' =>
    if k = name then (k, o') :: rest else (k, o) :: updateOpt rest name o'

/-! ## `ReadConfigFile` (config.go) -/

/-- The per-call parse state of `ReadConfigFile`: the registry plus the Go
locals `section` and `ignoreSection` (zero values: empty string, `false`). -/
structure ReadState where
  cfg : Config
  curSection : Chars
  ignoreSection : Bool
deriving DecidableEq

/-- Lines 399-430 of `config.go`: the `option.Source = "file:" + config_file`
assignment (which happens FIRST, through the shared `*Option` pointer, and
is therefore visible even when the subsequent parse fails) followed by the
`switch option.Type` statement that parses `value` and stores it.  Returns
the updated registry and the parse error, if any.  An `Option` whose `Type`
matches no case silently keeps its values (Go's switch has no default). -/
def storeOption (file : String) (name value : String) (opt : COption) (cfg : Config) :
    Config × Option String :=
  let opt := { opt with source := "file:" ++ file }
  match opt.type with
  | "string" => (updateOpt cfg name { opt with stringValue := value }, none)
  | "int" =>
    match parseAtoi value with
    | some i => (updateOpt cfg name { opt with intValue := i }, none)
    | none =>
      (updateOpt cfg name opt,
       some ("Unknown value \"" ++ value ++ "\" specified for integer option \"" ++
         name ++ "\" in file " ++ file))
  | "uint" =>
    match parseUintGo value with
    | some n => (updateOpt cfg name { opt with uintValue := n }, none)
    | none =>
      (updateOpt cfg name opt,
       some ("Unknown value \"" ++ value ++ "\" specified for uint option \"" ++
         name ++ "\" in file " ++ file))
  | "bool" =>
    let lv := String.mk (lowerChars value.data)
    if matchTrueWord lv then (updateOpt cfg name { opt with boolValue := true }, none)
    else if matchFalseWord lv then (updateOpt cfg name { opt with boolValue := false }, none)
    else
      (updateOpt cfg name opt,
       some ("Unknown value \"" ++ lv ++ "\" specified for boolean option \"" ++
         name ++ "\" in file " ++ file))
  | _ => (updateOpt cfg name opt, none)

/-- One iteration of the scanner loop of `ReadConfigFile`, processing a
single raw line at line number `lineNo`.  Returns the new state and
`some errorMessage` when the Go code returns an error (aborting the read
while keeping all registry mutations made so far, including the
`option.Source` assignment that precedes value parsing). -/
def processLine (cps : List String) (file : String) (lineNo : Nat) (raw : String)
    (st : ReadState) : ReadState × Option String :=
  let line := trimLeftWS raw.data
  if line.head? = some '#' then (st, none)
  else if line = [] then (st, none)
  else
    let line := stripTrailingComment line
    if line.head? = some '[' then
      let sec := trimSuffixRB line.tail
      if sec = [] then
        (st, some ("empty section name at line " ++ toString lineNo ++ ": " ++ String.mk line))
      else
        ({ st with curSection := sec, ignoreSection := ! InList cps (String.mk sec) }, none)
    else if st.ignoreSection then (st, none)
    else
      match splitEq line with
      | none => (st, some ("Bad line (" ++ toString lineNo ++ ") in config file " ++ file))
      | some (lhs, rhs) =>
        let name := String.mk (lowerChars (trimRightWS lhs))
        let value := String.mk (trimLeftWS rhs)
        match lookupOpt st.cfg name with
        | none => (st, some ("Unknown option \"" ++ name ++ "\" in config file " ++ file))
        | some opt =>
          if !opt.configFile then
            (st, some ("Illegal option \"" ++ name ++ "\" in config file " ++ file))
          else
            let r := storeOption file name value opt st.cfg
            ({ st with cfg := r.1 }, r.2)

/-- The scanner loop of `ReadConfigFile`: `line_no` is incremented before
each line is processed (first line is line 1); the first error aborts the
read immediately. -/
def readLines (cps : List String) (file : String) : Nat → List String → ReadState →
    ReadState × Option String
  | _, [], st => (st, none)
  | n, l :: rest, st =>
    match processLine cps file n l st with
    | (st', none) => readLines cps file (n + 1) rest st'
    | (st', some e) => (st', some e)

/-- The body of `ReadConfigFile` after the command-path guard: read every
line of the (already opened and scanned) file starting from the zero-valued
parse state. -/
def readConfigLoop (cps : List String) (file : String) (lines : List String)
    (cfg : Config) : Config × Option String :=
  let r := readLines cps file 1 lines ⟨cfg, [], false⟩
  (r.1.cfg, r.2)

/-- `ReadConfigFile` from `config.go`.  The file's contents arrive as the
list of its lines (`bufio.Scanner`); `cps` is the result of the
`GetCommandPaths()` call made at the top of the function, whose emptiness
check guards the whole body. -/
def ReadConfigFile (cps : List String) (file : String) (lines : List String)
    (cfg : Config) : Config × Option String :=
  if cps.length = 0 then (cfg, some "bug: failure getting command paths")
  else readConfigLoop cps file lines cfg

/-! ## `ConfigureOptions` (config.go): the file-loading loop -/

/-- The double loop of `ConfigureOptions` over `configFiles × ConfigDirs`,
restricted to the combinations whose `os.Stat` succeeds: `files` is the
list of (path, contents) of the config files that exist, in visiting order
(filename outer, directory inner).  An error from `ReadConfigFile` is
wrapped by `Error("%s!", err)` and stops the loop. -/
def readFiles (cps : List String) : List (String × List String) → Config →
    Config × Option String
  | [], cfg => (cfg, none)
  | (p, ls) :: rest, cfg =>
    match ReadConfigFile cps p ls cfg with
    | (cfg', none) => readFiles cps rest cfg'
    | (cfg', some e) => (cfg', some (e ++ "!"))

/-- The file-loading phase of `ConfigureOptions`, including its own
command-path emptiness guard (`"bug: failure getting command paths"`). -/
def ConfigureOptionsFiles (cps : List String) (files : List (String × List String))
    (cfg : Config) : Config × Option String :=
  if cps.length = 0 then (cfg, some "bug: failure getting command paths")
  else readFiles cps files cfg

/-! ## `ProcessCommandLine` (config.go) -/

/-- A typed command-line flag value as delivered by the pflag library. -/
inductive FlagVal
  | fstr (s : String)
  | fbool (b : Bool)
  | fint (i : Int)
  | fuint (n : Nat)
deriving DecidableEq

/-- The effect of `pflag.Parse` on one bound option variable: a supplied
flag of the registered type overwrites the pointed-to value; the
registration type always matches the flag type in Go, so a mismatched
`FlagVal` leaves the option unchanged. -/
def applyFlag (o : COption) (v : FlagVal) : COption :=
  match o.type, v with
  | "string", .fstr s => { o with stringValue := s }
  | "bool", .fbool b => { o with boolValue := b }
  | "int", .fint i => { o with intValue := i }
  | "uint", .fuint n => { o with uintValue := n }
  | _, _ => o

/-- `ProcessCommandLine` from `config.go`, with the external pflag library
modelled by its documented contract: every option is bound to a flag whose
default is the option's current value; `supplied name` is `some v` exactly
when the (case-normalized) flag `name` was explicitly given on the command
line, in which case `pflag.Parse` stores `v` in the bound variable and
`pflag.CommandLine.Changed(name)` reports true, upon which the code sets
`Source = "CommandLine"`.  Unsupplied flags leave value and source alone. -/
def ProcessCommandLine (supplied : String → Option FlagVal) (cfg : Config) : Config :=
  cfg.map (fun p =>
    match supplied p.1 with
    | none => p
    | some v => (p.1, { applyFlag p.2 v with source := "CommandLine" }))

/-! ## Well-formedness predicates used to quantify theorems

Real option names registered through `SetStringOpt` etc. are lowercase
ASCII words; the predicates below carve out names and values whose raw text
survives the reader's trimming untouched, so that theorems can quantify
over them. -/

/-- Lowercase ASCII letter or digit: cannot be whitespace, `'#'`, `'['` or
`'='`, and is a fixpoint of `Char.toLower`. -/
def plainCharB (c : Char) : Bool :=
  (97 ≤ c.toNat && c.toNat ≤ 122) || (48 ≤ c.toNat && c.toNat ≤ 57)

/-- A nonempty option name made of lowercase letters and digits. -/
abbrev PlainName (x : String) : Prop := x.data ≠ [] ∧ x.data.all plainCharB = true

/-- A nonempty value text with no horizontal whitespace and not starting
with `'#'` (so it is not swallowed by the trailing-comment rule). -/
abbrev CleanValue (v : String) : Prop :=
  v.data ≠ [] ∧ v.data.all (fun c => !isHWS c) = true ∧ v.data.head? ≠ some '#'

/-- A nonempty section name with no horizontal whitespace. -/
abbrev CleanSection (s : String) : Prop :=
  s.data ≠ [] ∧ s.data.all (fun c => !isHWS c) = true

/-! ## Character lemmas -/

theorem plain_ranges {c : Char} (h : plainCharB c = true) :
    (97 ≤ c.toNat ∧ c.toNat ≤ 122) ∨ (48 ≤ c.toNat ∧ c.toNat ≤ 57) := by
  simpa [plainCharB] using h

theorem isHWS_eq_false {c : Char} (h1 : c.toNat ≠ 32) (h2 : c.toNat ≠ 9) :
    isHWS c = false := by
  simp only [isHWS, Bool.or_eq_false_iff]
  exact ⟨by simpa using h1, by simpa using h2⟩

theorem plain_not_hws {c : Char} (h : plainCharB c = true) : isHWS c = false := by
  rcases plain_ranges h with ⟨h1, h2⟩ | ⟨h1, h2⟩ <;> exact isHWS_eq_false (by omega) (by omega)

theorem plain_ne_hash {c : Char} (h : plainCharB c = true) : c ≠ '#' :=
  fun hc => absurd (hc ▸ h) (by decide)

theorem plain_ne_lbracket {c : Char} (h : plainCharB c = true) : c ≠ '[' :=
  fun hc => absurd (hc ▸ h) (by decide)

theorem plain_ne_eq {c : Char} (h : plainCharB c = true) : c ≠ '=' :=
  fun hc => absurd (hc ▸ h) (by decide)

theorem plain_toLower {c : Char} (h : plainCharB c = true) : Char.toLower c = c := by
  have hr := plain_ranges h
  simp only [Char.toLower]
  rw [if_neg]
  omega

theorem notHWS_of_all {l : Chars} (h : l.all (fun c => !isHWS c) = true) :
    ∀ c ∈ l, isHWS c = false := by
  intro c hc
  have := (List.all_eq_true.mp h) c hc
  simpa using this

/-! ## Trimming lemmas -/

theorem dropWhile_eq_self_of_head {p : Char → Bool} {c : Char} {r : Chars}
    (h : p c = false) : (c :: r).dropWhile p = c :: r := by
  simp [List.dropWhile_cons, h]

theorem trimLeftWS_cons_noop {c : Char} {r : Chars} (h : isHWS c = false) :
    trimLeftWS (c :: r) = c :: r :=
  dropWhile_eq_self_of_head h

theorem dropWhile_eq_self_of_all {p : Char → Bool} {l : Chars}
    (h : ∀ c ∈ l, p c = false) : l.dropWhile p = l := by
  cases l with
  | nil => rfl
  | cons c r => exact dropWhile_eq_self_of_head (h c (List.mem_cons_self c r))

theorem trimRightWS_noop {l : Chars} (h : ∀ c ∈ l, isHWS c = false) :
    trimRightWS l = l := by
  unfold trimRightWS
  rw [dropWhile_eq_self_of_all (fun c hc => h c (List.mem_reverse.mp hc)), List.reverse_reverse]

theorem trimRightWS_append_space {l : Chars} (h : ∀ c ∈ l, isHWS c = false) :
    trimRightWS (l ++ [' ']) = l := by
  unfold trimRightWS
  rw [List.reverse_append]
  show (((' ' : Char) :: l.reverse).dropWhile isHWS).reverse = l
  rw [List.dropWhile_cons]
  simp only [show isHWS ' ' = true from rfl, if_true]
  rw [dropWhile_eq_self_of_all (fun c hc => h c (List.mem_reverse.mp hc)), List.reverse_reverse]

theorem lowerChars_noop {l : Chars} (h : ∀ c ∈ l, plainCharB c = true) :
    lowerChars l = l := by
  induction l with
  | nil => rfl
  | cons c r ih =>
    simp only [lowerChars, List.map_cons]
    rw [plain_toLower (h c (List.mem_cons_self c r))]
    exact congrArg (c :: ·) (ih (fun d hd => h d (List.mem_cons_of_mem c hd)))

/-! ## Comment-stripping lemmas -/

theorem hashAfterWS_cons_false {c : Char} {r : Chars} (h1 : c ≠ '#')
    (h2 : isHWS c = false) : hashAfterWS (c :: r) = false := by
  simp [hashAfterWS, h1, h2]

theorem strip_append_nonws {a : Chars} (b : Chars)
    (h : ∀ c ∈ a, isHWS c = false) :
    stripTrailingComment (a ++ b) = a ++ stripTrailingComment b := by
  induction a with
  | nil => rfl
  | cons c r ih =>
    simp only [List.cons_append, stripTrailingComment, List.append_eq]
    rw [if_neg, ih (fun d hd => h d (List.mem_cons_of_mem c hd))]
    intro hcontra
    exact absurd hcontra.1 (by simp [h c (List.mem_cons_self c r)])

theorem strip_noop {l : Chars} (h : ∀ c ∈ l, isHWS c = false) :
    stripTrailingComment l = l := by
  have := strip_append_nonws (a := l) [] h
  simpa [stripTrailingComment] using this

/-! ## `splitEq` lemmas -/

theorem splitEq_none {l : Chars} (h : '=' ∉ l) : splitEq l = none := by
  induction l with
  | nil => rfl
  | cons c r ih =>
    have hc : ¬ c = '=' := fun hc => h (by simp [hc])
    simp only [splitEq, if_neg hc, ih (fun hr => h (List.mem_cons_of_mem c hr))]

theorem splitEq_append {a : Chars} (b : Chars) (h : '=' ∉ a) :
    splitEq (a ++ '=' :: b) = some (a, b) := by
  induction a with
  | nil => simp [splitEq]
  | cons c r ih =>
    have hc : ¬ c = '=' := fun hc => h (by simp [hc])
    simp only [List.cons_append, splitEq, List.append_eq, if_neg hc,
      ih (fun hr => h (List.mem_cons_of_mem c hr))]

/-! ## `trimSuffixRB` lemma -/

theorem trimSuffixRB_append (l : Chars) : trimSuffixRB (l ++ [']']) = l := by
  unfold trimSuffixRB
  rw [List.reverse_append]
  show (match (']' : Char) :: l.reverse with
    | [] => l ++ [']']
    | c :: r => if c = ']' then r.reverse else l ++ [']']) = l
  simp

/-! ## Registry lemmas -/

theorem lookup_update_self {cfg : Config} {x : String} {o o' : COption}
    (h : lookupOpt cfg x = some o) : lookupOpt (updateOpt cfg x o') x = some o' := by
  induction cfg with
  | nil => exact absurd h (by simp [lookupOpt])
  | cons p rest ih =>
    obtain ⟨k, w⟩ := p
    by_cases hk : k = x
    · simp [lookupOpt, updateOpt, hk]
    · simp only [lookupOpt, updateOpt, if_neg hk] at h ⊢
      exact ih h

theorem lookup_update_other {cfg : Config} {x y : String} {o' : COption}
    (h : y ≠ x) : lookupOpt (updateOpt cfg x o') y = lookupOpt cfg y := by
  induction cfg with
  | nil => rfl
  | cons p rest ih =>
    obtain ⟨k, w⟩ := p
    by_cases hk : k = x
    · subst hk
      simp [lookupOpt, updateOpt, if_neg (fun hc : k = y => h (hc ▸ rfl))]
    · simp only [updateOpt, if_neg hk, lookupOpt]
      by_cases hy : k = y
      · simp [hy]
      · simp [hy, ih]

theorem update_update {cfg : Config} {x : String} {o1 o2 : COption} :
    updateOpt (updateOpt cfg x o1) x o2 = updateOpt cfg x o2 := by
  induction cfg with
  | nil => rfl
  | cons p rest ih =>
    obtain ⟨k, w⟩ := p
    by_cases hk : k = x
    · simp [updateOpt, hk]
    · simp [updateOpt, hk, ih]

/-! ## `processLine` stepping lemmas -/

theorem dropWhile_head_false {p : Char → Bool} {l : Chars} {c : Char}
    (h : (l.dropWhile p).head? = some c) : p c = false := by
  induction l with
  | nil => exact absurd h (by simp [List.dropWhile])
  | cons a r ih =>
    rw [List.dropWhile_cons] at h
    by_cases hp : p a
    · exact ih (by simpa [hp] using h)
    · have : a = c := by simpa [hp] using h
      simpa [← this] using hp

/-- A non-comment, non-blank, non-header line is skipped with no effect
while `ignoreSection` is set. -/
theorem processLine_ignored (cps : List String) (file : String) (n : Nat)
    (raw : String) (st : ReadState) (hig : st.ignoreSection = true)
    (h : (trimLeftWS raw.data).head? ≠ some '[') :
    processLine cps file n raw st = (st, none) := by
  cases ht : trimLeftWS raw.data with
  | nil => simp [processLine, ht]
  | cons c r =>
    have hcnws : isHWS c = false := dropWhile_head_false (l := raw.data) (by rw [← trimLeftWS, ht]; rfl)
    by_cases hch : c = '#'
    · simp [processLine, ht, hch]
    · have hcl : ¬ c = '[' := fun hc => h (by rw [ht, hc]; rfl)
      have hstrip : stripTrailingComment (c :: r) = c :: stripTrailingComment r := by
        simp only [stripTrailingComment]
        rw [if_neg]
        intro hcontra
        exact absurd hcontra.1 (by simp [hcnws])
      simp only [processLine, ht, hstrip]
      rw [if_neg (by simp [hch]), if_neg (by simp), if_neg (by simp [hcl])]
      simp [hig]

/-- A `[section]` header line with a nonempty whitespace-free name sets
`curSection` and recomputes `ignoreSection` from the command-path list. -/
theorem processLine_header (cps : List String) (file : String) (n : Nat)
    (s : String) (st : ReadState) (hs : CleanSection s) :
    processLine cps file n ("[" ++ s ++ "]") st =
      ({ st with curSection := s.data, ignoreSection := ! InList cps s }, none) := by
  obtain ⟨hsne, hsall⟩ := hs
  have hsnws : ∀ c ∈ s.data, isHWS c = false := notHWS_of_all hsall
  have hdata : ("[" ++ s ++ "]").data = '[' :: (s.data ++ [']']) := by
    simp [String.data_append]
  have h1 : trimLeftWS ('[' :: (s.data ++ [']'])) = '[' :: (s.data ++ [']']) :=
    trimLeftWS_cons_noop (by rfl)
  have h5 : stripTrailingComment ('[' :: (s.data ++ [']'])) = '[' :: (s.data ++ [']']) := by
    apply strip_noop
    intro d hd
    rcases List.mem_cons.mp hd with hd1 | hd2
    · rw [hd1]; rfl
    · rcases List.mem_append.mp hd2 with hd3 | hd4
      · exact hsnws d hd3
      · rw [List.mem_singleton.mp hd4]; rfl
  have h6 : trimSuffixRB (s.data ++ [']']) = s.data := trimSuffixRB_append s.data
  have hhd : ('[' :: (s.data ++ [']'])).head? = some '[' := rfl
  simp only [processLine, hdata, h1, h5]
  rw [if_neg (by simp), if_neg (by simp), if_pos hhd]
  simp only [List.tail_cons, h6]
  rw [if_neg hsne]

/-- The line `[]` (empty section name) aborts the read with a fatal error
citing the line number, whatever the current state. -/
theorem processLine_empty_header (cps : List String) (file : String) (n : Nat)
    (st : ReadState) :
    processLine cps file n "[]" st =
      (st, some ("empty section name at line " ++ toString n ++ ": " ++ "[]")) := by
  have hdata : ("[]" : String).data = ['[', ']'] := rfl
  have h1 : trimLeftWS ['[', ']'] = ['[', ']'] := by decide
  have h5 : stripTrailingComment ['[', ']'] = ['[', ']'] := by decide
  have hhd : (['[', ']'] : Chars).head? = some '[' := rfl
  have hsec : trimSuffixRB ((['[', ']'] : Chars).tail) = [] := by decide
  have hmk : String.mk ['[', ']'] = "[]" := by decide
  simp only [processLine, hdata, h1, h5]
  rw [if_neg (by decide), if_neg (by decide), if_pos hhd, hsec, hmk]
  rw [if_pos rfl]

/-- An assignment line `name=value` in an active section looks the name up
and runs the `Source` assignment plus type switch (`storeOption`). -/
theorem processLine_assign (cps : List String) (file : String) (n : Nat) (x v : String)
    (cfg : Config) (sec : Chars) (opt : COption)
    (hx : PlainName x) (hv : CleanValue v)
    (hl : lookupOpt cfg x = some opt) (hcf : opt.configFile = true) :
    processLine cps file n (x ++ "=" ++ v) ⟨cfg, sec, false⟩ =
      (⟨(storeOption file x v opt cfg).1, sec, false⟩, (storeOption file x v opt cfg).2) := by
  obtain ⟨hxne, hxall⟩ := hx
  obtain ⟨hvne, hvall, hvhead⟩ := hv
  have hxplain : ∀ c ∈ x.data, plainCharB c = true := List.all_eq_true.mp hxall
  have hxnws : ∀ c ∈ x.data, isHWS c = false := fun c hc => plain_not_hws (hxplain c hc)
  have hvnws : ∀ c ∈ v.data, isHWS c = false := notHWS_of_all hvall
  obtain ⟨c, cd, hcd⟩ : ∃ c cd, x.data = c :: cd := by
    cases hx2 : x.data with
    | nil => exact absurd hx2 hxne
    | cons a b => exact ⟨a, b, rfl⟩
  have hcplain : plainCharB c = true := hxplain c (by rw [hcd]; exact List.mem_cons_self _ _)
  have hdata : (x ++ "=" ++ v).data = x.data ++ '=' :: v.data := by
    simp [String.data_append]
  have h1 : trimLeftWS (x.data ++ '=' :: v.data) = x.data ++ '=' :: v.data := by
    rw [hcd, List.cons_append]
    exact trimLeftWS_cons_noop (plain_not_hws hcplain)
  have h2 : (x.data ++ '=' :: v.data).head? = some c := by rw [hcd]; rfl
  have h3 : ¬ ((x.data ++ '=' :: v.data).head? = some '#') := by
    rw [h2]
    simp [plain_ne_hash hcplain]
  have h4 : ¬ (x.data ++ '=' :: v.data = []) := by rw [hcd]; simp
  have h5 : stripTrailingComment (x.data ++ '=' :: v.data) = x.data ++ '=' :: v.data := by
    have hshape : x.data ++ '=' :: v.data = (x.data ++ ['=']) ++ v.data := by simp
    have hanws : ∀ d ∈ x.data ++ ['='], isHWS d = false := by
      intro d hd
      rcases List.mem_append.mp hd with hd1 | hd2
      · exact hxnws d hd1
      · rw [List.mem_singleton.mp hd2]; rfl
    rw [hshape, strip_append_nonws v.data hanws, strip_noop hvnws]
  have h6 : ¬ ((x.data ++ '=' :: v.data).head? = some '[') := by
    rw [h2]
    simp [plain_ne_lbracket hcplain]
  have heqmem : '=' ∉ x.data := fun hm => plain_ne_eq (hxplain _ hm) rfl
  have h7 : splitEq (x.data ++ '=' :: v.data) = some (x.data, v.data) :=
    splitEq_append v.data heqmem
  have h8 : String.mk (lowerChars (trimRightWS x.data)) = x := by
    rw [trimRightWS_noop hxnws, lowerChars_noop hxplain]
  have h9 : String.mk (trimLeftWS v.data) = v := by
    unfold trimLeftWS
    rw [dropWhile_eq_self_of_all hvnws]
  simp only [processLine, hdata, h1, h5, h7, h8, h9, hl, hcf]
  rw [if_neg h3, if_neg h4, if_neg h6]
  simp

/-! ## `storeOption` per-type lemmas -/

theorem storeOption_string {file name v : String} {opt : COption} {cfg : Config}
    (ht : opt.type = "string") :
    storeOption file name v opt cfg =
      (updateOpt cfg name { opt with stringValue := v, source := "file:" ++ file }, none) := by
  simp [storeOption, ht]

theorem storeOption_int_err {file name v : String} {opt : COption} {cfg : Config}
    (ht : opt.type = "int") (hp : parseAtoi v = none) :
    storeOption file name v opt cfg =
      (updateOpt cfg name { opt with source := "file:" ++ file },
       some ("Unknown value \"" ++ v ++ "\" specified for integer option \"" ++
         name ++ "\" in file " ++ file)) := by
  simp [storeOption, ht, hp]

theorem storeOption_bool {file name v : String} {opt : COption} {cfg : Config}
    (ht : opt.type = "bool") :
    storeOption file name v opt cfg =
      (let lv := String.mk (lowerChars v.data)
       if matchTrueWord lv then
         (updateOpt cfg name { opt with boolValue := true, source := "file:" ++ file }, none)
       else if matchFalseWord lv then
         (updateOpt cfg name { opt with boolValue := false, source := "file:" ++ file }, none)
       else
         (updateOpt cfg name { opt with source := "file:" ++ file },
          some ("Unknown value \"" ++ lv ++ "\" specified for boolean option \"" ++
            name ++ "\" in file " ++ file))) := by
  simp only [storeOption, ht]

/-! ## `readLines` stepping lemmas -/

theorem readLines_cons (cps : List String) (file : String) (n : Nat) (l : String)
    (rest : List String) (st : ReadState) :
    readLines cps file n (l :: rest) st =
      match processLine cps file n l st with
      | (st', none) => readLines cps file (n + 1) rest st'
      | (st', some e) => (st', some e) := rfl

theorem readLines_skip_ignored (cps : List String) (file : String)
    (body : List String) (rest : List String) :
    ∀ (n : Nat) (st : ReadState), st.ignoreSection = true →
      (∀ l ∈ body, (trimLeftWS l.data).head? ≠ some '[') →
      readLines cps file n (body ++ rest) st = readLines cps file (n + body.length) rest st := by
  induction body with
  | nil =>
    intro n st _ _
    simp
  | cons l body' ih =>
    intro n st hig hbody
    rw [List.cons_append, readLines_cons,
      processLine_ignored cps file n l st hig (hbody l (List.mem_cons_self _ _))]
    show readLines cps file (n + 1) (body' ++ rest) st = _
    rw [ih (n + 1) st hig (fun m hm => hbody m (List.mem_cons_of_mem _ hm))]
    congr 1
    simp
    omega

/-- A non-comment, non-blank, non-header line with no `'='` (after comment
stripping) in an active section is the malformed-line fatal error. -/
theorem processLine_badline (cps : List String) (file : String) (n : Nat)
    (bad : String) (st : ReadState)
    (hne : trimLeftWS bad.data ≠ [])
    (hhash : (trimLeftWS bad.data).head? ≠ some '#')
    (hlb : (trimLeftWS bad.data).head? ≠ some '[')
    (hig : st.ignoreSection = false)
    (heq : '=' ∉ stripTrailingComment (trimLeftWS bad.data)) :
    processLine cps file n bad st =
      (st, some ("Bad line (" ++ toString n ++ ") in config file " ++ file)) := by
  cases ht : trimLeftWS bad.data with
  | nil => exact absurd ht hne
  | cons c r =>
    have hcnws : isHWS c = false :=
      dropWhile_head_false (l := bad.data) (by rw [← trimLeftWS, ht]; rfl)
    have hch : ¬ c = '#' := fun hc => hhash (by rw [ht, hc]; rfl)
    have hcl : ¬ c = '[' := fun hc => hlb (by rw [ht, hc]; rfl)
    have hstrip : stripTrailingComment (c :: r) = c :: stripTrailingComment r := by
      simp only [stripTrailingComment]
      rw [if_neg]
      intro hcontra
      exact absurd hcontra.1 (by simp [hcnws])
    rw [ht] at heq
    have hsplit : splitEq (stripTrailingComment (c :: r)) = none := splitEq_none heq
    simp only [processLine, ht, hstrip]
    rw [if_neg (by simp [hch]), if_neg (by simp), if_neg (by simp [hcl])]
    rw [hstrip] at hsplit
    simp [hig, hsplit]

/-- A one-line file runs `processLine` once on line 1 from the zero state
and reports its outcome. -/
theorem ReadConfigFile_single_line (cps : List String) (file line : String)
    (cfg cfg' : Config) (sec : Chars) (err : Option String)
    (hcps : cps ≠ [])
    (h : processLine cps file 1 line ⟨cfg, [], false⟩ = (⟨cfg', sec, false⟩, err)) :
    ReadConfigFile cps file [line] cfg = (cfg', err) := by
  have hlen : ¬ cps.length = 0 := by simpa [List.length_eq_zero] using hcps
  unfold ReadConfigFile
  rw [if_neg hlen]
  unfold readConfigLoop
  rw [readLines_cons, h]
  cases err with
  | none => rfl
  | some e => rfl

theorem readLines_cons_ok {cps : List String} {file : String} {n : Nat} {l : String}
    {st st' : ReadState} (rest : List String)
    (h : processLine cps file n l st = (st', none)) :
    readLines cps file n (l :: rest) st = readLines cps file (n + 1) rest st' := by
  rw [readLines_cons, h]

theorem readLines_cons_err {cps : List String} {file : String} {n : Nat} {l : String}
    {st st' : ReadState} {e : String} (rest : List String)
    (h : processLine cps file n l st = (st', some e)) :
    readLines cps file n (l :: rest) st = (st', some e) := by
  rw [readLines_cons, h]

theorem InList_ne_nil {cps : List String} {s : String} (h : InList cps s = true) :
    cps ≠ [] := by
  cases cps with
  | nil => exact absurd h (by simp [InList])
  | cons a r => simp

/-- A two-line file `[s]` (with `s` in the command paths) followed by
`x=v` runs the store step on `x`. -/
theorem ReadConfigFile_section_assign (cps : List String) (file s x v : String)
    (cfg : Config) (opt : COption)
    (hin : InList cps s = true) (hs : CleanSection s)
    (hx : PlainName x) (hv : CleanValue v)
    (hl : lookupOpt cfg x = some opt) (hcf : opt.configFile = true) :
    ReadConfigFile cps file ["[" ++ s ++ "]", x ++ "=" ++ v] cfg =
      storeOption file x v opt cfg := by
  have hcps : cps ≠ [] := InList_ne_nil hin
  have hlen : ¬ cps.length = 0 := by simpa [List.length_eq_zero] using hcps
  have h1 : processLine cps file 1 ("[" ++ s ++ "]") ⟨cfg, [], false⟩ =
      (⟨cfg, s.data, false⟩, none) := by
    rw [processLine_header cps file 1 s _ hs, hin]
    rfl
  have hstep : (1 : Nat) + 1 = 2 := rfl
  unfold ReadConfigFile
  rw [if_neg hlen]
  unfold readConfigLoop
  rw [readLines_cons_ok _ h1, hstep]
  cases hr : (storeOption file x v opt cfg).2 with
  | none =>
    have h2 : processLine cps file 2 (x ++ "=" ++ v) ⟨cfg, s.data, false⟩ =
        (⟨(storeOption file x v opt cfg).1, s.data, false⟩, none) := by
      rw [processLine_assign cps file 2 x v cfg s.data opt hx hv hl hcf, hr]
    rw [readLines_cons_ok _ h2]
    show ((storeOption file x v opt cfg).1, none) = _
    rw [← hr]
  | some e =>
    have h2 : processLine cps file 2 (x ++ "=" ++ v) ⟨cfg, s.data, false⟩ =
        (⟨(storeOption file x v opt cfg).1, s.data, false⟩, some e) := by
      rw [processLine_assign cps file 2 x v cfg s.data opt hx hv hl hcf, hr]
    rw [readLines_cons_err _ h2]
    show ((storeOption file x v opt cfg).1, some e) = _
    rw [← hr]

/-! ## Demo registry entries used by witnesses -/

def demoStrOpt : COption :=
  { type := "string", shortOpt := "", configFile := true, desc := "",
    stringValue := "", boolValue := false, intValue := 0, uintValue := 0,
    source := "Default" }

def demoBoolOpt : COption :=
  { type := "bool", shortOpt := "", configFile := true, desc := "",
    stringValue := "", boolValue := false, intValue := 0, uintValue := 0,
    source := "Default" }

def demoIntOpt : COption :=
  { type := "int", shortOpt := "r", configFile := true, desc := "",
    stringValue := "", boolValue := false, intValue := 3, uintValue := 0,
    source := "Default" }

/-! ## Claim C4 -/

/-- C4: during `readConfigFile`, while the current section's name is not in
the resolved command-path list, every non-header line is skipped without
validation and no option in the registry is modified (the registry comes
back exactly as it went in, even when `body` contains assignments to valid
option names or garbage lines); and a section header with an empty name is
a fatal error citing its line number. -/
theorem c4_nonmatching_section_skipped
    (cps : List String) (file s : String) (body : List String) (cfg : Config)
    (hcps : cps ≠ [])
    (hs : CleanSection s)
    (hnot : InList cps s = false)
    (hbody : ∀ l ∈ body, (trimLeftWS l.data).head? ≠ some '[') :
    ReadConfigFile cps file (("[" ++ s ++ "]") :: (body ++ ["[]"])) cfg =
      (cfg, some ("empty section name at line " ++ toString (body.length + 2) ++
        ": " ++ "[]")) := by
  have hlen : ¬ cps.length = 0 := by simpa [List.length_eq_zero] using hcps
  have h1 : processLine cps file 1 ("[" ++ s ++ "]") ⟨cfg, [], false⟩ =
      (⟨cfg, s.data, true⟩, none) := by
    rw [processLine_header cps file 1 s _ hs, hnot]
    rfl
  unfold ReadConfigFile
  rw [if_neg hlen]
  unfold readConfigLoop
  rw [readLines_cons_ok _ h1,
    readLines_skip_ignored cps file body ["[]"] (1 + 1) ⟨cfg, s.data, true⟩ rfl hbody,
    readLines_cons, processLine_empty_header]
  have harith : 1 + 1 + body.length = body.length + 2 := by omega
  rw [harith]

theorem c4_nonmatching_section_skipped_witness :
    ReadConfigFile ["prog"] "t.conf"
        (("[" ++ "other" ++ "]") :: (["verbose=true", "junk line"] ++ ["[]"]))
        [("verbose", demoBoolOpt)] =
      ([("verbose", demoBoolOpt)],
       some ("empty section name at line " ++
         toString ((["verbose=true", "junk line"] : List String).length + 2) ++
         ": " ++ "[]")) :=
  c4_nonmatching_section_skipped ["prog"] "t.conf" "other" ["verbose=true", "junk line"]
    [("verbose", demoBoolOpt)] (by decide) (by decide) (by decide) (by decide)

/-! ## Claim C5 -/

/-- C5: a non-comment, non-blank, non-header line in an active section with
no `'='` (after comment stripping) is the fatal malformed-line error citing
the line number and file; the read aborts at that line (the following
`rest` lines are never processed, whatever they contain), and the
assignment processed before the bad line remains applied. -/
theorem c5_malformed_line_aborts
    (cps : List String) (file x v bad : String) (rest : List String)
    (cfg : Config) (opt : COption)
    (hcps : cps ≠ [])
    (hx : PlainName x) (hv : CleanValue v)
    (hl : lookupOpt cfg x = some opt) (ht : opt.type = "string") (hcf : opt.configFile = true)
    (hbne : trimLeftWS bad.data ≠ [])
    (hbhash : (trimLeftWS bad.data).head? ≠ some '#')
    (hblb : (trimLeftWS bad.data).head? ≠ some '[')
    (hbeq : '=' ∉ stripTrailingComment (trimLeftWS bad.data)) :
    ReadConfigFile cps file ((x ++ "=" ++ v) :: bad :: rest) cfg =
      (updateOpt cfg x { opt with stringValue := v, source := "file:" ++ file },
       some ("Bad line (" ++ toString (1 + 1 : Nat) ++ ") in config file " ++ file)) := by
  have hlen : ¬ cps.length = 0 := by simpa [List.length_eq_zero] using hcps
  have h1 : processLine cps file 1 (x ++ "=" ++ v) ⟨cfg, [], false⟩ =
      (⟨updateOpt cfg x { opt with stringValue := v, source := "file:" ++ file },
        [], false⟩, none) := by
    rw [processLine_assign cps file 1 x v cfg [] opt hx hv hl hcf, storeOption_string ht]
  have h2 : processLine cps file (1 + 1) bad
      ⟨updateOpt cfg x { opt with stringValue := v, source := "file:" ++ file },
        [], false⟩ =
      (⟨updateOpt cfg x { opt with stringValue := v, source := "file:" ++ file },
        [], false⟩,
       some ("Bad line (" ++ toString (1 + 1 : Nat) ++ ") in config file " ++ file)) :=
    processLine_badline cps file (1 + 1) bad _ hbne hbhash hblb rfl hbeq
  unfold ReadConfigFile
  rw [if_neg hlen]
  unfold readConfigLoop
  rw [readLines_cons_ok _ h1, readLines_cons_err _ h2]

theorem c5_malformed_line_aborts_witness :
    ReadConfigFile ["prog"] "t.conf" (("name" ++ "=" ++ "val") :: "garbage" :: ["name=other"])
        [("name", demoStrOpt)] =
      (updateOpt [("name", demoStrOpt)] "name"
         { demoStrOpt with stringValue := "val", source := "file:" ++ "t.conf" },
       some ("Bad line (" ++ toString (1 + 1 : Nat) ++ ") in config file " ++ "t.conf")) :=
  c5_malformed_line_aborts ["prog"] "t.conf" "name" "val" "garbage" ["name=other"]
    [("name", demoStrOpt)] demoStrOpt (by decide) (by decide) (by decide) (by decide)
    (by decide) (by decide) (by decide) (by decide) (by decide) (by decide)

/-! ## Claim C6 -/

/-- Counterexample to C6 as stated: for the int option `retries` (current
value 3, provenance `Default`), reading the line `retries=abc` fails with a
`ParseError`, the value is unchanged, BUT the option's source has already
been rewritten to `file:a.conf` — the provenance does not survive a failed
parse, because `option.Source` is assigned before the value is parsed. -/
theorem c6_counterexample :
    (ReadConfigFile ["prog"] "a.conf" ["retries=abc"] [("retries", demoIntOpt)]).2.isSome = true ∧
    lookupOpt (ReadConfigFile ["prog"] "a.conf" ["retries=abc"] [("retries", demoIntOpt)]).1
        "retries" = some { demoIntOpt with source := "file:a.conf" } ∧
    demoIntOpt.source = "Default" ∧
    ¬ ("file:a.conf" = "Default") := by decide

/-- C6 (amended): when `readConfigFile` processes an assignment whose raw
text fails to parse for an int option, no value is stored (the option's
value fields are unchanged), but the option's `Source` has already been
updated to `"file:" + path`, because the source assignment precedes the
parse; the read then aborts with the ParseError message. -/
theorem c6_parse_error_keeps_value_updates_source
    (cps : List String) (file x v : String) (cfg : Config) (opt : COption)
    (hcps : cps ≠ [])
    (hx : PlainName x) (hv : CleanValue v)
    (hl : lookupOpt cfg x = some opt) (ht : opt.type = "int") (hcf : opt.configFile = true)
    (hp : parseAtoi v = none) :
    ReadConfigFile cps file [x ++ "=" ++ v] cfg =
      (updateOpt cfg x { opt with source := "file:" ++ file },
       some ("Unknown value \"" ++ v ++ "\" specified for integer option \"" ++ x ++
         "\" in file " ++ file)) := by
  apply ReadConfigFile_single_line cps file _ cfg _ [] _ hcps
  rw [processLine_assign cps file 1 x v cfg [] opt hx hv hl hcf, storeOption_int_err ht hp]

theorem c6_parse_error_witness :
    ReadConfigFile ["prog"] "a.conf" ["retries" ++ "=" ++ "abc"] [("retries", demoIntOpt)] =
      (updateOpt [("retries", demoIntOpt)] "retries"
         { demoIntOpt with source := "file:" ++ "a.conf" },
       some ("Unknown value \"" ++ "abc" ++ "\" specified for integer option \"" ++
         "retries" ++ "\" in file " ++ "a.conf")) :=
  c6_parse_error_keeps_value_updates_source ["prog"] "a.conf" "retries" "abc"
    [("retries", demoIntOpt)] demoIntOpt (by decide) (by decide) (by decide) (by decide)
    (by decide) (by decide) (by decide)

/-! ## Claim C7 -/

/-- C7: a boolean option assignment read from a configuration file is
parsed case-insensitively (the value is lowercased first): any of
`t`, `true`, `yes`, `1` stores true; any of `f`, `false`, `no`, `0` stores
false; any other text is a fatal ParseError naming the (lowercased)
offending value and the option, storing nothing (though the source was
already updated). -/
theorem c7_bool_case_insensitive
    (cps : List String) (file x v : String) (cfg : Config) (opt : COption)
    (hcps : cps ≠ [])
    (hx : PlainName x) (hv : CleanValue v)
    (hl : lookupOpt cfg x = some opt) (ht : opt.type = "bool") (hcf : opt.configFile = true) :
    ReadConfigFile cps file [x ++ "=" ++ v] cfg =
      (if matchTrueWord (String.mk (lowerChars v.data)) then
         (updateOpt cfg x { opt with boolValue := true, source := "file:" ++ file }, none)
       else if matchFalseWord (String.mk (lowerChars v.data)) then
         (updateOpt cfg x { opt with boolValue := false, source := "file:" ++ file }, none)
       else
         (updateOpt cfg x { opt with source := "file:" ++ file },
          some ("Unknown value \"" ++ String.mk (lowerChars v.data) ++
            "\" specified for boolean option \"" ++ x ++ "\" in file " ++ file))) := by
  have hb := @storeOption_bool file x v opt cfg ht
  by_cases h1 : matchTrueWord (String.mk (lowerChars v.data)) = true
  · rw [if_pos h1]
    apply ReadConfigFile_single_line cps file _ cfg _ [] _ hcps
    rw [processLine_assign cps file 1 x v cfg [] opt hx hv hl hcf, hb]
    simp [h1]
  · rw [if_neg h1]
    by_cases h2 : matchFalseWord (String.mk (lowerChars v.data)) = true
    · rw [if_pos h2]
      apply ReadConfigFile_single_line cps file _ cfg _ [] _ hcps
      rw [processLine_assign cps file 1 x v cfg [] opt hx hv hl hcf, hb]
      simp [h1, h2]
    · rw [if_neg h2]
      apply ReadConfigFile_single_line cps file _ cfg _ [] _ hcps
      rw [processLine_assign cps file 1 x v cfg [] opt hx hv hl hcf, hb]
      simp [h1, h2]

theorem c7_bool_case_insensitive_witness :
    (ReadConfigFile ["prog"] "b.conf" ["verbose" ++ "=" ++ "Yes"] [("verbose", demoBoolOpt)] =
       (if matchTrueWord (String.mk (lowerChars ("Yes" : String).data)) then
          (updateOpt [("verbose", demoBoolOpt)] "verbose"
            { demoBoolOpt with boolValue := true, source := "file:" ++ "b.conf" }, none)
        else if matchFalseWord (String.mk (lowerChars ("Yes" : String).data)) then
          (updateOpt [("verbose", demoBoolOpt)] "verbose"
            { demoBoolOpt with boolValue := false, source := "file:" ++ "b.conf" }, none)
        else
          (updateOpt [("verbose", demoBoolOpt)] "verbose"
             { demoBoolOpt with source := "file:" ++ "b.conf" },
           some ("Unknown value \"" ++ String.mk (lowerChars ("Yes" : String).data) ++
             "\" specified for boolean option \"" ++ "verbose" ++ "\" in file " ++ "b.conf")))) ∧
    matchTrueWord (String.mk (lowerChars ("Yes" : String).data)) = true ∧
    matchFalseWord (String.mk (lowerChars ("False" : String).data)) = true ∧
    matchTrueWord (String.mk (lowerChars ("maybe" : String).data)) = false ∧
    matchFalseWord (String.mk (lowerChars ("maybe" : String).data)) = false :=
  ⟨c7_bool_case_insensitive ["prog"] "b.conf" "verbose" "Yes" [("verbose", demoBoolOpt)]
     demoBoolOpt (by decide) (by decide) (by decide) (by decide) (by decide) (by decide),
   by decide, by decide, by decide, by decide⟩

/-! ## Claim C8 -/

theorem hashAfterWS_ws_cons {c : Char} {r : Chars} (h1 : ¬ c = '#')
    (h2 : isHWS c = true) : hashAfterWS (c :: r) = hashAfterWS r := by
  simp [hashAfterWS, h1, h2]

/-- C8: reading back a config-file line `key = value  # comment` stores
exactly the text `value` for the option: the trailing comment (whitespace
then `'#'` to end of line) and the whitespace before it are removed, and
the value's leading whitespace is stripped.  A `'#'` inside `value` that is
not preceded by whitespace (`CleanValue` forbids whitespace in `v` but
allows interior `'#'`) is not treated as a comment and stays in the value. -/
theorem c8_roundtrip_comment_stripped
    (cps : List String) (file x v c : String) (cfg : Config) (opt : COption)
    (hcps : cps ≠ [])
    (hx : PlainName x) (hv : CleanValue v)
    (hl : lookupOpt cfg x = some opt) (ht : opt.type = "string") (hcf : opt.configFile = true) :
    ReadConfigFile cps file [x ++ " = " ++ v ++ "  # " ++ c] cfg =
      (updateOpt cfg x { opt with stringValue := v, source := "file:" ++ file }, none) := by
  obtain ⟨hxne, hxall⟩ := hx
  obtain ⟨hvne, hvall, hvhead⟩ := hv
  have hxplain : ∀ d ∈ x.data, plainCharB d = true := List.all_eq_true.mp hxall
  have hxnws : ∀ d ∈ x.data, isHWS d = false := fun d hd => plain_not_hws (hxplain d hd)
  have hvnws : ∀ d ∈ v.data, isHWS d = false := notHWS_of_all hvall
  obtain ⟨a, ad, had⟩ : ∃ a ad, x.data = a :: ad := by
    cases hx2 : x.data with
    | nil => exact absurd hx2 hxne
    | cons p q => exact ⟨p, q, rfl⟩
  obtain ⟨d, dd, hdd⟩ : ∃ d dd, v.data = d :: dd := by
    cases hv2 : v.data with
    | nil => exact absurd hv2 hvne
    | cons p q => exact ⟨p, q, rfl⟩
  have haplain : plainCharB a = true := hxplain a (by rw [had]; exact List.mem_cons_self _ _)
  have hdnws : isHWS d = false := hvnws d (by rw [hdd]; exact List.mem_cons_self _ _)
  have hdhash : ¬ d = '#' := fun hc => hvhead (by rw [hdd, hc]; rfl)
  -- the raw character list of the line
  have hdata : (x ++ " = " ++ v ++ "  # " ++ c).data =
      x.data ++ ' ' :: '=' :: ' ' :: (v.data ++ ' ' :: ' ' :: '#' :: ' ' :: c.data) := by
    simp [String.data_append]
  set tail : Chars := ' ' :: ' ' :: '#' :: ' ' :: c.data with htaildef
  -- leading trim is a no-op (the name starts the line)
  have h1 : trimLeftWS (x.data ++ ' ' :: '=' :: ' ' :: (v.data ++ tail)) =
      x.data ++ ' ' :: '=' :: ' ' :: (v.data ++ tail) := by
    rw [had, List.cons_append]
    exact trimLeftWS_cons_noop (plain_not_hws haplain)
  have h2 : (x.data ++ ' ' :: '=' :: ' ' :: (v.data ++ tail)).head? = some a := by
    rw [had]; rfl
  have h3 : ¬ ((x.data ++ ' ' :: '=' :: ' ' :: (v.data ++ tail)).head? = some '#') := by
    rw [h2]
    simp [plain_ne_hash haplain]
  have h4 : ¬ (x.data ++ ' ' :: '=' :: ' ' :: (v.data ++ tail) = []) := by
    rw [had]; simp
  -- comment stripping drops exactly `tail` and the whitespace run before `'#'`
  have hhashv : hashAfterWS (v.data ++ tail) = false := by
    rw [hdd, List.cons_append]
    exact hashAfterWS_cons_false hdhash hdnws
  have hstriptail : stripTrailingComment tail = [] := by
    rw [htaildef]
    have hcond : isHWS ' ' = true ∧ hashAfterWS (' ' :: '#' :: ' ' :: c.data) = true :=
      ⟨by decide, by simp [hashAfterWS, isHWS]⟩
    simp only [stripTrailingComment]
    rw [if_pos hcond]
  have hstripv : stripTrailingComment (v.data ++ tail) = v.data := by
    rw [strip_append_nonws tail hvnws, hstriptail, List.append_nil]
  have h5 : stripTrailingComment (x.data ++ ' ' :: '=' :: ' ' :: (v.data ++ tail)) =
      x.data ++ ' ' :: '=' :: ' ' :: v.data := by
    rw [strip_append_nonws _ hxnws]
    congr 1
    show stripTrailingComment (' ' :: '=' :: ' ' :: (v.data ++ tail)) = _
    simp only [stripTrailingComment]
    rw [if_neg, if_neg, if_neg]
    · rw [hstripv]
    · intro hcon
      exact absurd hcon.2 (by simp [hhashv])
    · intro hcon
      exact absurd hcon.1 (by decide)
    · intro hcon
      have : hashAfterWS ('=' :: ' ' :: (v.data ++ tail)) = false :=
        hashAfterWS_cons_false (by decide) (by decide)
      exact absurd hcon.2 (by simp [this])
  have h6 : ¬ ((x.data ++ ' ' :: '=' :: ' ' :: v.data).head? = some '[') := by
    rw [had]
    simp [plain_ne_lbracket haplain]
  -- the `=`-split takes `x ` as the name part and ` value` as the value part
  have heqmem : '=' ∉ x.data ++ [' '] := by
    intro hm
    rcases List.mem_append.mp hm with hm1 | hm2
    · exact plain_ne_eq (hxplain _ hm1) rfl
    · exact absurd (List.mem_singleton.mp hm2) (by decide)
  have h7 : splitEq (x.data ++ ' ' :: '=' :: ' ' :: v.data) =
      some (x.data ++ [' '], ' ' :: v.data) := by
    have hshape : x.data ++ ' ' :: '=' :: ' ' :: v.data =
        (x.data ++ [' ']) ++ '=' :: (' ' :: v.data) := by simp
    rw [hshape, splitEq_append _ heqmem]
  have h8 : String.mk (lowerChars (trimRightWS (x.data ++ [' ']))) = x := by
    rw [trimRightWS_append_space hxnws, lowerChars_noop hxplain]
  have h9 : String.mk (trimLeftWS (' ' :: v.data)) = v := by
    unfold trimLeftWS
    rw [List.dropWhile_cons]
    simp only [show isHWS ' ' = true from rfl, if_true]
    rw [dropWhile_eq_self_of_all hvnws]
  apply ReadConfigFile_single_line cps file _ cfg _ [] _ hcps
  simp only [processLine, hdata, h1, h5, h7, h8, h9, hl, hcf]
  rw [if_neg h3, if_neg h4, if_neg h6]
  simp [storeOption_string ht, hcf]

theorem c8_roundtrip_comment_stripped_witness :
    ReadConfigFile ["prog"] "t.conf"
        ["name" ++ " = " ++ "val#ue" ++ "  # " ++ "a comment"] [("name", demoStrOpt)] =
      (updateOpt [("name", demoStrOpt)] "name"
         { demoStrOpt with stringValue := "val#ue", source := "file:" ++ "t.conf" }, none) :=
  c8_roundtrip_comment_stripped ["prog"] "t.conf" "name" "val#ue" "a comment"
    [("name", demoStrOpt)] demoStrOpt (by decide) (by decide) (by decide) (by decide)
    (by decide) (by decide)

/-! ## Claim C3 -/

theorem readFiles_cons (cps : List String) (p : String) (ls : List String)
    (rest : List (String × List String)) (cfg : Config) :
    readFiles cps ((p, ls) :: rest) cfg =
      match ReadConfigFile cps p ls cfg with
      | (cfg', none) => readFiles cps rest cfg'
      | (cfg', some e) => (cfg', some (e ++ "!")) := rfl

theorem readFiles_cons_ok {cps : List String} {p : String} {ls : List String}
    {cfg cfg' : Config} (rest : List (String × List String))
    (h : ReadConfigFile cps p ls cfg = (cfg', none)) :
    readFiles cps ((p, ls) :: rest) cfg = readFiles cps rest cfg' := by
  rw [readFiles_cons, h]

/-- C3: when two configuration files visited in priority order both assign
the same option `x` (inside a section that matches the command paths), the
final value is the one from the second (later-visited, higher-priority)
file, and the provenance is `"file:" ++ p2`, the second file's path: the
last writer in priority order wins. -/
theorem c3_last_writer_wins
    (cps : List String) (s p1 p2 x v1 v2 : String) (cfg : Config) (opt : COption)
    (hin : InList cps s = true) (hs : CleanSection s)
    (hx : PlainName x) (hv1 : CleanValue v1) (hv2 : CleanValue v2)
    (hl : lookupOpt cfg x = some opt) (ht : opt.type = "string") (hcf : opt.configFile = true) :
    readFiles cps
        [(p1, ["[" ++ s ++ "]", x ++ "=" ++ v1]),
         (p2, ["[" ++ s ++ "]", x ++ "=" ++ v2])] cfg =
      (updateOpt cfg x { opt with stringValue := v2, source := "file:" ++ p2 }, none) ∧
    lookupOpt (readFiles cps
        [(p1, ["[" ++ s ++ "]", x ++ "=" ++ v1]),
         (p2, ["[" ++ s ++ "]", x ++ "=" ++ v2])] cfg).1 x =
      some { opt with stringValue := v2, source := "file:" ++ p2 } := by
  have hr1 : ReadConfigFile cps p1 ["[" ++ s ++ "]", x ++ "=" ++ v1] cfg =
      (updateOpt cfg x { opt with stringValue := v1, source := "file:" ++ p1 }, none) := by
    rw [ReadConfigFile_section_assign cps p1 s x v1 cfg opt hin hs hx hv1 hl hcf,
      storeOption_string ht]
  have hl1 : lookupOpt (updateOpt cfg x { opt with stringValue := v1, source := "file:" ++ p1 }) x
      = some { opt with stringValue := v1, source := "file:" ++ p1 } := lookup_update_self hl
  have ht1 : ({ opt with stringValue := v1, source := "file:" ++ p1 } : COption).type
      = "string" := ht
  have hcf1 : ({ opt with stringValue := v1, source := "file:" ++ p1 } : COption).configFile
      = true := hcf
  have hr2 : ReadConfigFile cps p2 ["[" ++ s ++ "]", x ++ "=" ++ v2]
      (updateOpt cfg x { opt with stringValue := v1, source := "file:" ++ p1 }) =
      (updateOpt (updateOpt cfg x { opt with stringValue := v1, source := "file:" ++ p1 }) x
        { opt with stringValue := v2, source := "file:" ++ p2 }, none) := by
    rw [ReadConfigFile_section_assign cps p2 s x v2 _ _ hin hs hx hv2 hl1 hcf1,
      storeOption_string ht1]
  have hmain : readFiles cps
      [(p1, ["[" ++ s ++ "]", x ++ "=" ++ v1]),
       (p2, ["[" ++ s ++ "]", x ++ "=" ++ v2])] cfg =
      (updateOpt cfg x { opt with stringValue := v2, source := "file:" ++ p2 }, none) := by
    rw [readFiles_cons_ok _ hr1, readFiles_cons_ok _ hr2, update_update]
    rfl
  refine ⟨hmain, ?_⟩
  rw [hmain]
  exact lookup_update_self hl

theorem c3_last_writer_wins_witness :
    readFiles ["prog"]
        [("low.conf", ["[" ++ "prog" ++ "]", "name" ++ "=" ++ "five"]),
         ("high.conf", ["[" ++ "prog" ++ "]", "name" ++ "=" ++ "seven"])]
        [("name", demoStrOpt)] =
      (updateOpt [("name", demoStrOpt)] "name"
        { demoStrOpt with stringValue := "seven", source := "file:" ++ "high.conf" }, none) ∧
    lookupOpt (readFiles ["prog"]
        [("low.conf", ["[" ++ "prog" ++ "]", "name" ++ "=" ++ "five"]),
         ("high.conf", ["[" ++ "prog" ++ "]", "name" ++ "=" ++ "seven"])]
        [("name", demoStrOpt)]).1 "name" =
      some { demoStrOpt with stringValue := "seven", source := "file:" ++ "high.conf" } :=
  c3_last_writer_wins ["prog"] "prog" "low.conf" "high.conf" "name" "five" "seven"
    [("name", demoStrOpt)] demoStrOpt (by decide) (by decide) (by decide) (by decide)
    (by decide) (by decide) (by decide) (by decide)

/-! ## Claim C2 -/

/-- `ProcessCommandLine` acts pointwise on the registry: each option's
post-parse entry depends only on whether its own flag was supplied. -/
theorem lookupOpt_processCommandLine (supplied : String → Option FlagVal)
    (cfg : Config) (name : String) :
    lookupOpt (ProcessCommandLine supplied cfg) name =
      (lookupOpt cfg name).map (fun o =>
        match supplied name with
        | none => o
        | some v => { applyFlag o v with source := "CommandLine" }) := by
  induction cfg with
  | nil => rfl
  | cons p rest ih =>
    obtain ⟨k, o⟩ := p
    have hstep : ProcessCommandLine supplied ((k, o) :: rest) =
        (match supplied k with
         | none => (k, o)
         | some v => (k, { applyFlag o v with source := "CommandLine" })) ::
          ProcessCommandLine supplied rest := by
      cases hsup : supplied k <;> simp [ProcessCommandLine, hsup]
    rw [hstep]
    cases hsup : supplied k with
    | none =>
      by_cases hk : k = name
      · subst hk
        simp [lookupOpt, hsup]
      · simp [lookupOpt, hk, ih]
    | some v =>
      by_cases hk : k = name
      · subst hk
        simp [lookupOpt, hsup]
      · simp [lookupOpt, hk, ih]

/-- C2: for a declared option, an explicitly supplied command-line flag
overwrites the option's value (whatever value and provenance the file layer
left there) and sets provenance `CommandLine`; an unsupplied flag leaves
value and provenance exactly as they were, because the flag's default was
bound to the option's current (post-file-load) value. -/
theorem c2_commandline_overrides (supplied : String → Option FlagVal)
    (cfg : Config) (name : String) (opt : COption)
    (h : lookupOpt cfg name = some opt) :
    (supplied name = none →
      lookupOpt (ProcessCommandLine supplied cfg) name = some opt) ∧
    (∀ s, opt.type = "string" → supplied name = some (FlagVal.fstr s) →
      lookupOpt (ProcessCommandLine supplied cfg) name =
        some { opt with stringValue := s, source := "CommandLine" }) ∧
    (∀ b, opt.type = "bool" → supplied name = some (FlagVal.fbool b) →
      lookupOpt (ProcessCommandLine supplied cfg) name =
        some { opt with boolValue := b, source := "CommandLine" }) ∧
    (∀ i, opt.type = "int" → supplied name = some (FlagVal.fint i) →
      lookupOpt (ProcessCommandLine supplied cfg) name =
        some { opt with intValue := i, source := "CommandLine" }) ∧
    (∀ u, opt.type = "uint" → supplied name = some (FlagVal.fuint u) →
      lookupOpt (ProcessCommandLine supplied cfg) name =
        some { opt with uintValue := u, source := "CommandLine" }) := by
  refine ⟨?_, ?_, ?_, ?_, ?_⟩
  · intro hsup
    rw [lookupOpt_processCommandLine, h, hsup]
    rfl
  · intro s hty hsup
    rw [lookupOpt_processCommandLine, h, hsup]
    simp [applyFlag, hty]
  · intro b hty hsup
    rw [lookupOpt_processCommandLine, h, hsup]
    simp [applyFlag, hty]
  · intro i hty hsup
    rw [lookupOpt_processCommandLine, h, hsup]
    simp [applyFlag, hty]
  · intro u hty hsup
    rw [lookupOpt_processCommandLine, h, hsup]
    simp [applyFlag, hty]

/-- A demo command line supplying only `--retries=12`. -/
def c2sup : String → Option FlagVal :=
  fun n => if n = "retries" then some (FlagVal.fint 12) else none

/-- A demo registry after file loading: `retries` was set to 9 by a file,
`name` still has its default. -/
def c2cfg : Config :=
  [("retries", { demoIntOpt with intValue := 9, source := "file:x.conf" }),
   ("name", demoStrOpt)]

theorem c2_commandline_overrides_witness :
    lookupOpt (ProcessCommandLine c2sup c2cfg) "retries" =
      some { demoIntOpt with intValue := 12, source := "CommandLine" } ∧
    lookupOpt (ProcessCommandLine c2sup c2cfg) "name" = some demoStrOpt :=
  ⟨(c2_commandline_overrides c2sup c2cfg "retries"
      { demoIntOpt with intValue := 9, source := "file:x.conf" }
      (by decide)).2.2.2.1 12 (by decide) (by decide),
   (c2_commandline_overrides c2sup c2cfg "name" demoStrOpt (by decide)).1 (by decide)⟩

/-! ## Claim C9 -/

/-- Counterexample to C9 as stated: `StringToBool "false"` returns `false`
with a nil error, not `true`.  The `return !match, nil` statement is only
reached when the false-word regex matched, i.e. when `match = true`, so it
returns `!true = false`. -/
theorem c9_counterexample :
    StringToBool "false" = (false, none) ∧ ¬ ((StringToBool "false").1 = true) := by
  decide

/-- C9 (amended): for every input string exactly matching one of `f`,
`false`, `no`, `0`, `StringToBool` returns FALSE with no error: the
negation in `return !match, nil` is applied to the match result `true` of
the false-word regex, so the function is correct (the spec's suspicion of a
latent bug does not hold). -/
theorem c9_false_words_return_false (s : String)
    (h : s = "f" ∨ s = "false" ∨ s = "no" ∨ s = "0") :
    StringToBool s = (false, none) := by
  rcases h with h | h | h | h <;> subst h <;> decide

theorem c9_false_words_return_false_witness :
    StringToBool "no" = (false, none) :=
  c9_false_words_return_false "no" (by decide)

/-! ## Claim C10 -/

/-- C10: `GetCommandPaths` always returns a list of length at least one
whose first element is the program name, so the `InternalError` guards on
an empty command-path list in `ConfigureOptions` and `ReadConfigFile`
(`"bug: failure getting command paths"`) are unreachable: both functions
always take their main branch. -/
theorem c10_command_paths_nonempty (p a : String) :
    GetCommandPaths p a ≠ [] ∧
    (GetCommandPaths p a).head? = some p ∧
    (∀ file lines cfg, ReadConfigFile (GetCommandPaths p a) file lines cfg =
        readConfigLoop (GetCommandPaths p a) file lines cfg) ∧
    (∀ files cfg, ConfigureOptionsFiles (GetCommandPaths p a) files cfg =
        readFiles (GetCommandPaths p a) files cfg) := by
  refine ⟨by simp [GetCommandPaths], by simp [GetCommandPaths], ?_, ?_⟩
  · intro file lines cfg
    unfold ReadConfigFile
    rw [if_neg]
    simp [GetCommandPaths]
  · intro files cfg
    unfold ConfigureOptionsFiles
    rw [if_neg]
    simp [GetCommandPaths]

/-! ## Claim C1 -/

theorem joinColon_merge (a b : String) (l : List String) :
    joinColon ((a ++ ":" ++ b) :: l) = a ++ ":" ++ joinColon (b :: l) := by
  cases l with
  | nil => rfl
  | cons u r =>
    show (a ++ ":" ++ b) ++ ":" ++ joinColon (u :: r) = a ++ ":" ++ (b ++ ":" ++ joinColon (u :: r))
    simp [String.append_assoc]

/-- The accumulator loop of `GetCommandPaths` computes, for each `i`, the
colon-join of the accumulated command followed by the first `i+1` remaining
tokens. -/
theorem cumulAux_spec (l : List String) : ∀ cmd : String,
    cumulAux cmd ":" l =
      (List.range l.length).map (fun i => joinColon (cmd :: l.take (i + 1))) := by
  induction l with
  | nil => intro cmd; rfl
  | cons c rest ih =>
    intro cmd
    show (cmd ++ ":" ++ c) :: cumulAux (cmd ++ ":" ++ c) ":" rest = _
    rw [ih (cmd ++ ":" ++ c), List.length_cons, List.range_succ_eq_map, List.map_cons,
      List.map_map]
    congr 1
    apply List.map_congr_left
    intro i _
    show joinColon ((cmd ++ ":" ++ c) :: rest.take (i + 1)) =
      joinColon (cmd :: (c :: rest).take (i + 1 + 1))
    rw [List.take_succ_cons, joinColon_merge]
    rfl

/-- Counterexample to C1 as stated: with program name `prog` and invocation
token list `["prog", "sub"]` (from `os.Args[0] = "prog sub"`),
`GetCommandPaths` returns `["prog", "sub"]`, while the spec's description
(every path after the first prefixed by the program name, i.e. the
cumulative colon-joins of the full token list) would give
`["prog", "prog:sub"]`. -/
theorem c1_counterexample :
    GetCommandPaths "prog" "prog sub" = ["prog", "sub"] ∧
    specCommandPaths (splitOnSpace "prog sub") = ["prog", "prog:sub"] ∧
    ¬ (GetCommandPaths "prog" "prog sub" = specCommandPaths (splitOnSpace "prog sub")) := by
  decide

/-- C1 (amended): `GetCommandPaths` returns the program name followed by
the colon-joined cumulative paths of the sub-command tokens only (the
space-separated tokens of `os.Args[0]` after the first), WITHOUT the
program-name prefix: `[ProgramName, t1, t1:t2, ..., t1:...:tn]`. -/
theorem c1_amended_subcommand_paths (p a : String) :
    GetCommandPaths p a = p :: specCommandPaths ((splitOnSpace a).tail) := by
  unfold GetCommandPaths
  congr 1
  cases h : (splitOnSpace a).tail with
  | nil => rfl
  | cons c rest =>
    show ("" ++ "" ++ c) :: cumulAux ("" ++ "" ++ c) ":" rest = _
    have hc : ("" : String) ++ "" ++ c = c := rfl
    rw [hc, cumulAux_spec rest c]
    show _ = (List.range (c :: rest).length).map
      (fun i => joinColon ((c :: rest).take (i + 1)))
    rw [List.length_cons, List.range_succ_eq_map, List.map_cons, List.map_map]
    rfl

end Sitepkg
